import Mathlib

/-!
Verification of the autoscroll daemon (src/main.rs): a motion classifier that
turns middle-button drags into scroll commands, a rate-limited scroll emitter
thread, and a heuristic input-device selector.  The Rust `f32` positions are
modelled exactly as rationals (all event deltas are integers), machine
integers as `ℤ`, and the Rust float-to-int `as` cast as truncation toward
zero.
-/

namespace AutoScroll

/-- Commands sent from the main loop to the scroll thread
(`enum ScrollCommand` in src/main.rs). -/
inductive ScrollCommand where
  | start
  | stop
  | update (intensity : ℤ)
  deriving DecidableEq

/-- Constant `DEADZONE: f32 = 50.0` from src/main.rs. -/
def DEADZONE : ℚ := 50

/-- Constant `BASE_SCROLL_SPEED: f32 = 0.05` from src/main.rs, the exact
rational 1/20. -/
def BASE_SCROLL_SPEED : ℚ := 1 / 20

/-- Constant `MAX_SCROLL_SPEED: i32 = 5` from src/main.rs. -/
def MAX_SCROLL_SPEED : ℤ := 5

/-- Rust `as i32` conversion applied to a nonnegative-or-negative float:
truncation toward zero. -/
def f32_as_i32 (x : ℚ) : ℤ := if x < 0 then -⌊-x⌋ else ⌊x⌋

/-- The three event shapes the main loop's `match ev.kind()` distinguishes:
a middle-button key event carrying `ev.value()`, a vertical relative-motion
event carrying `ev.value()`, and anything else. -/
inductive InputEvent where
  | btnMiddle (value : ℤ)
  | relY (delta : ℤ)
  | other
  deriving DecidableEq

/-- The classifier state kept by `main`: the mutable locals `scrolling`,
`origin_y` and `absolute_y`. -/
structure ClassifierState where
  scrolling : Bool
  origin_y : ℚ
  absolute_y : ℚ
  deriving DecidableEq

/-- Initial classifier state in `main`: `scrolling = false`,
`origin_y = 0.0`, `absolute_y = 0.0`. -/
def initClassifier : ClassifierState := ⟨false, 0, 0⟩

/-- The Update command computed from `distance` while scrolling, lines 52-66
of src/main.rs: inside the deadzone send `Update(0)`; outside it send
`Update(direction * speed)` with
`speed = max 1 (((|distance| - DEADZONE) * BASE_SCROLL_SPEED).min(MAX) as i32)`
and `direction = if distance < 0 { 1 } else { -1 }`. -/
def motionCommand (distance : ℚ) : ScrollCommand :=
  if |distance| > DEADZONE then
    let speed :=
      f32_as_i32 (min ((|distance| - DEADZONE) * BASE_SCROLL_SPEED)
        ((MAX_SCROLL_SPEED : ℤ) : ℚ))
    let speed := max speed 1
    let direction : ℤ := if distance < 0 then 1 else -1
    ScrollCommand.update (direction * speed)
  else
    ScrollCommand.update 0

/-- One iteration of the event `match` in `main`: consumes one input event,
returns the updated state together with the list of commands sent on the
channel during that event. -/
def stepClassifier (s : ClassifierState) (ev : InputEvent) :
    ClassifierState × List ScrollCommand :=
  match ev with
  | .btnMiddle v =>
      if v == 1 then
        ({ s with scrolling := true, origin_y := s.absolute_y },
         [ScrollCommand.start])
      else
        ({ s with scrolling := false }, [ScrollCommand.stop])
  | .relY d =>
      let new_y := s.absolute_y + (d : ℚ)
      if s.scrolling then
        ({ s with absolute_y := new_y }, [motionCommand (new_y - s.origin_y)])
      else
        ({ s with absolute_y := new_y }, [])
  | .other => (s, [])

theorem floor_min_eq (a b : ℚ) : ⌊min a b⌋ = min ⌊a⌋ ⌊b⌋ := by
  rcases le_total a b with h | h
  · rw [min_eq_left h, min_eq_left (Int.floor_le_floor h)]
  · rw [min_eq_right h, min_eq_right (Int.floor_le_floor h)]

theorem stepClassifier_relY_scrolling (s : ClassifierState) (d : ℤ)
    (hs : s.scrolling = true) :
    stepClassifier s (.relY d) =
      ({ s with absolute_y := s.absolute_y + (d : ℚ) },
       [motionCommand (s.absolute_y + (d : ℚ) - s.origin_y)]) := by
  simp [stepClassifier, hs]

theorem motionCommand_of_le (x : ℚ) (h : |x| ≤ DEADZONE) :
    motionCommand x = ScrollCommand.update 0 := by
  rw [motionCommand, if_neg (not_lt.mpr h)]

theorem motionCommand_of_gt (x : ℚ) (h : DEADZONE < |x|) :
    motionCommand x =
      ScrollCommand.update
        ((if x < 0 then 1 else -1) * max 1 (min 5 ⌊(|x| - 50) * (1 / 20 : ℚ)⌋)) := by
  have h0 : (0 : ℚ) ≤
      min ((|x| - DEADZONE) * BASE_SCROLL_SPEED) ((MAX_SCROLL_SPEED : ℤ) : ℚ) := by
    apply le_min
    · have hx : (0 : ℚ) ≤ |x| - DEADZONE := by
        rw [DEADZONE] at h ⊢; linarith
      rw [BASE_SCROLL_SPEED]
      positivity
    · rw [MAX_SCROLL_SPEED]; norm_num
  simp only [motionCommand, if_pos h, f32_as_i32, if_neg (not_lt.mpr h0),
    floor_min_eq, Int.floor_intCast]
  rw [max_comm, min_comm]
  norm_num [BASE_SCROLL_SPEED, MAX_SCROLL_SPEED, DEADZONE]

/-- C2: while the classifier is dragging, a vertical motion event whose
resulting distance d from the origin satisfies |d| ≤ 50 (the deadzone) makes
the classifier emit exactly `Update(0)`. -/
theorem deadzone_update_zero (s : ClassifierState) (d : ℤ)
    (hs : s.scrolling = true)
    (hd : |s.absolute_y + (d : ℚ) - s.origin_y| ≤ DEADZONE) :
    (stepClassifier s (.relY d)).2 = [ScrollCommand.update 0] := by
  rw [stepClassifier_relY_scrolling s d hs]
  simp [motionCommand_of_le _ hd]

/-- C2 witness at a concrete state and event. -/
theorem deadzone_update_zero_witness :
    (stepClassifier ⟨true, 0, 0⟩ (.relY 30)).2 = [ScrollCommand.update 0] :=
  deadzone_update_zero ⟨true, 0, 0⟩ 30 rfl (by norm_num [DEADZONE])

/-- C1: while the classifier is dragging, a vertical motion event whose
resulting distance d from the origin satisfies |d| > 50 emits `Update(v)`
where the sign of v is the sign of -d and |v| = clamp(floor((|d|-50)*0.05),
1, 5); in particular d = 150 yields -5, d = 60 yields -1, and d = -70
yields 1. -/
theorem update_outside_deadzone (s : ClassifierState) (d : ℤ)
    (hs : s.scrolling = true)
    (hd : DEADZONE < |s.absolute_y + (d : ℚ) - s.origin_y|) :
    (∃ v : ℤ, (stepClassifier s (.relY d)).2 = [ScrollCommand.update v] ∧
      (0 < s.absolute_y + (d : ℚ) - s.origin_y → v < 0) ∧
      (s.absolute_y + (d : ℚ) - s.origin_y < 0 → 0 < v) ∧
      |v| = max 1 (min 5 ⌊(|s.absolute_y + (d : ℚ) - s.origin_y| - 50) *
        (1 / 20 : ℚ)⌋)) ∧
    (stepClassifier ⟨true, 0, 0⟩ (.relY 150)).2 = [ScrollCommand.update (-5)] ∧
    (stepClassifier ⟨true, 0, 0⟩ (.relY 60)).2 = [ScrollCommand.update (-1)] ∧
    (stepClassifier ⟨true, 0, 0⟩ (.relY (-70))).2 = [ScrollCommand.update 1] := by
  have hmag : (1 : ℤ) ≤ max 1 (min 5 ⌊(|s.absolute_y + (d : ℚ) - s.origin_y| - 50) *
      (1 / 20 : ℚ)⌋) := le_max_left _ _
  refine ⟨⟨(if s.absolute_y + (d : ℚ) - s.origin_y < 0 then 1 else -1) *
      max 1 (min 5 ⌊(|s.absolute_y + (d : ℚ) - s.origin_y| - 50) * (1 / 20 : ℚ)⌋),
      ?_, ?_, ?_, ?_⟩, ?_, ?_, ?_⟩
  · rw [stepClassifier_relY_scrolling s d hs]
    simp [motionCommand_of_gt _ hd]
  · intro hpos
    rw [if_neg (not_lt.mpr (le_of_lt hpos))]
    nlinarith
  · intro hneg
    rw [if_pos hneg]
    nlinarith
  · rcases lt_or_ge (s.absolute_y + (d : ℚ) - s.origin_y) 0 with hneg | hpos
    · rw [if_pos hneg, one_mul, abs_of_nonneg (by omega)]
    · rw [if_neg (not_lt.mpr hpos), neg_one_mul, abs_neg, abs_of_nonneg (by omega)]
  · have habs : |(0 : ℚ) + (150 : ℤ) - 0| = 150 := by norm_num
    have hgt : DEADZONE < |(0 : ℚ) + ((150 : ℤ) : ℚ) - 0| := by
      rw [DEADZONE]; norm_num
    rw [stepClassifier_relY_scrolling ⟨true, 0, 0⟩ 150 rfl]
    simp only [motionCommand_of_gt _ hgt]
    have hfl : ⌊(|(0 : ℚ) + ((150 : ℤ) : ℚ) - 0| - 50) * (1 / 20 : ℚ)⌋ = 5 := by
      rw [Int.floor_eq_iff]; norm_num
    rw [hfl]
    norm_num
  · have hgt : DEADZONE < |(0 : ℚ) + ((60 : ℤ) : ℚ) - 0| := by
      rw [DEADZONE]; norm_num
    rw [stepClassifier_relY_scrolling ⟨true, 0, 0⟩ 60 rfl]
    simp only [motionCommand_of_gt _ hgt]
    have hfl : ⌊(|(0 : ℚ) + ((60 : ℤ) : ℚ) - 0| - 50) * (1 / 20 : ℚ)⌋ = 0 := by
      rw [Int.floor_eq_iff]; norm_num
    rw [hfl]
    norm_num
  · have hgt : DEADZONE < |(0 : ℚ) + ((-70 : ℤ) : ℚ) - 0| := by
      rw [DEADZONE]; norm_num
    rw [stepClassifier_relY_scrolling ⟨true, 0, 0⟩ (-70) rfl]
    simp only [motionCommand_of_gt _ hgt]
    have hfl : ⌊(|(0 : ℚ) + ((-70 : ℤ) : ℚ) - 0| - 50) * (1 / 20 : ℚ)⌋ = 1 := by
      rw [Int.floor_eq_iff]; norm_num
    rw [hfl]
    norm_num

/-- C1 witness at a concrete state and event. -/
theorem update_outside_deadzone_witness :
    DEADZONE < |(0 : ℚ) + ((150 : ℤ) : ℚ) - 0| ∧
    (stepClassifier ⟨true, 0, 0⟩ (.relY 150)).2 = [ScrollCommand.update (-5)] := by
  have h : DEADZONE < |(0 : ℚ) + ((150 : ℤ) : ℚ) - 0| := by
    rw [DEADZONE]; norm_num
  exact ⟨h, (update_outside_deadzone ⟨true, 0, 0⟩ 150 rfl h).2.1⟩

/-- C9: a middle-button event with any value other than 1 (release value 0,
autorepeat value 2, ...) sets `scrolling` to false and emits `Stop`, even
when the classifier is already idle. -/
theorem nonpress_sets_idle_and_stops (s : ClassifierState) (v : ℤ) (hv : v ≠ 1) :
    stepClassifier s (.btnMiddle v) =
      ({ s with scrolling := false }, [ScrollCommand.stop]) := by
  simp [stepClassifier, hv]

/-- C9 witness: a release received while already idle still emits `Stop`. -/
theorem nonpress_sets_idle_and_stops_witness :
    stepClassifier initClassifier (.btnMiddle 0) =
      ({ initClassifier with scrolling := false }, [ScrollCommand.stop]) :=
  nonpress_sets_idle_and_stops initClassifier 0 (by decide)

/-- C3 counterexample: after the event sequence
press-middle, move +100, press-middle (no release in between), the second
press re-assigns `origin_y` (from 0 to 100) at a step where `scrolling` was
already true, i.e. with no false-to-true transition of the flag.  So
`origin_y` is not only assigned at Idle-to-Dragging transitions. -/
theorem origin_reassigned_without_transition :
    (stepClassifier (stepClassifier initClassifier
        (.btnMiddle 1)).1 (.relY 100)).1.scrolling = true ∧
    (stepClassifier (stepClassifier initClassifier
        (.btnMiddle 1)).1 (.relY 100)).1.origin_y = 0 ∧
    (stepClassifier (stepClassifier (stepClassifier initClassifier
        (.btnMiddle 1)).1 (.relY 100)).1 (.btnMiddle 1)).1.scrolling = true ∧
    (stepClassifier (stepClassifier (stepClassifier initClassifier
        (.btnMiddle 1)).1 (.relY 100)).1 (.btnMiddle 1)).1.origin_y = 100 := by
  norm_num [stepClassifier, initClassifier]

/-- C3 amended: `origin_y` is assigned exactly at middle-button press events
(value 1); such a press sets `scrolling := true`, sets `origin_y` to the
current `absolute_y` and emits `Start` (when the classifier was idle this is
the false-to-true transition of `scrolling`); no other event assigns
`origin_y`.  A press arriving while already dragging re-assigns `origin_y`
without a false-to-true transition. -/
theorem origin_assigned_only_on_press (s : ClassifierState) :
    ((stepClassifier s (.btnMiddle 1)).1.origin_y = s.absolute_y ∧
     (stepClassifier s (.btnMiddle 1)).1.scrolling = true ∧
     (stepClassifier s (.btnMiddle 1)).2 = [ScrollCommand.start]) ∧
    (∀ v : ℤ, v ≠ 1 →
      (stepClassifier s (.btnMiddle v)).1.origin_y = s.origin_y) ∧
    (∀ d : ℤ, (stepClassifier s (.relY d)).1.origin_y = s.origin_y) ∧
    (stepClassifier s .other).1.origin_y = s.origin_y := by
  refine ⟨⟨rfl, rfl, rfl⟩, ?_, ?_, rfl⟩
  · intro v hv
    simp [stepClassifier, hv]
  · intro d
    by_cases hs : s.scrolling <;> simp [stepClassifier, hs]

/-- C3 amended witness at concrete inputs. -/
theorem origin_assigned_only_on_press_witness :
    (stepClassifier initClassifier (.btnMiddle 1)).1.origin_y = 0 ∧
    (stepClassifier initClassifier (.btnMiddle 0)).1.origin_y = 0 := by
  have h := origin_assigned_only_on_press initClassifier
  exact ⟨h.1.1, h.2.1 0 (by decide)⟩

/-- Constant `SCROLL_INTERVAL = Duration::from_millis(50)` from
`scroll_thread`, in milliseconds. -/
def SCROLL_INTERVAL : ℕ := 50

/-- State of `scroll_thread`: the locals `scrolling`, `scroll_value` and the
instant `last_scroll`, with instants modelled as millisecond timestamps. -/
structure EmitterState where
  scrolling : Bool
  scroll_value : ℤ
  last_scroll : ℕ
  deriving DecidableEq

/-- Effect of one drained command in scroll_thread's `match command`;
`now` is the current instant, used when `Start` resets the cadence timer
(`last_scroll = Instant::now()`). -/
def applyCommand (now : ℕ) (s : EmitterState) : ScrollCommand → EmitterState
  | .start => { s with scrolling := true, last_scroll := now }
  | .stop => { s with scrolling := false, scroll_value := 0 }
  | .update v => { s with scroll_value := v }

/-- One iteration of the scroll_thread loop at instant `now`: drain the
queued command batch in FIFO order, then emit one wheel event of magnitude
`scroll_value` (returned as `some`, followed by the synchronize) precisely
when `scrolling` holds, at least `SCROLL_INTERVAL` ms have elapsed since
`last_scroll`, and `scroll_value != 0`; emission resets the cadence timer. -/
def emitterIter (s : EmitterState) (cmds : List ScrollCommand) (now : ℕ) :
    EmitterState × Option ℤ :=
  let s1 := cmds.foldl (applyCommand now) s
  if s1.scrolling = true ∧ SCROLL_INTERVAL ≤ now - s1.last_scroll ∧
      s1.scroll_value ≠ 0 then
    ({ s1 with last_scroll := now }, some s1.scroll_value)
  else
    (s1, none)

/-- A run of scroll_thread iterations: each list entry is the command batch
drained at that iteration together with the iteration's instant.  Returns
the per-iteration emissions and the final state. -/
def emitterRun (s : EmitterState) :
    List (List ScrollCommand × ℕ) → List (Option ℤ) × EmitterState
  | [] => ([], s)
  | (cmds, now) :: rest =>
      let p := emitterIter s cmds now
      let q := emitterRun p.1 rest
      (p.2 :: q.1, q.2)

theorem foldl_no_start_scrolling (now : ℕ) (cmds : List ScrollCommand) :
    ∀ s : EmitterState, ScrollCommand.start ∉ cmds → s.scrolling = false →
      (cmds.foldl (applyCommand now) s).scrolling = false := by
  induction cmds with
  | nil => intro s _ hs; exact hs
  | cons c cs ih =>
      intro s hmem hs
      rw [List.foldl_cons]
      refine ih _ (fun h => hmem (List.mem_cons_of_mem _ h)) ?_
      cases c with
      | start => exact absurd (List.mem_cons_self _ _) hmem
      | stop => rfl
      | update v => exact hs

theorem emitterIter_idle (s : EmitterState) (cmds : List ScrollCommand)
    (now : ℕ) (hmem : ScrollCommand.start ∉ cmds) (hs : s.scrolling = false) :
    (emitterIter s cmds now).2 = none ∧
      (emitterIter s cmds now).1.scrolling = false := by
  have h1 := foldl_no_start_scrolling now cmds s hmem hs
  rw [emitterIter, if_neg (by simp [h1])]
  exact ⟨rfl, h1⟩

theorem emitterRun_idle (iters : List (List ScrollCommand × ℕ)) :
    ∀ s : EmitterState, (∀ p ∈ iters, ScrollCommand.start ∉ p.1) →
      s.scrolling = false → ∀ e ∈ (emitterRun s iters).1, e = none := by
  induction iters with
  | nil => intro s _ _ e he; simp [emitterRun] at he
  | cons p rest ih =>
      intro s hns hs e he
      obtain ⟨cmds, now⟩ := p
      have hhd := emitterIter_idle s cmds now
        (hns _ (List.mem_cons_self _ _)) hs
      rw [emitterRun] at he
      rcases List.mem_cons.mp he with h | h
      · rw [h, hhd.1]
      · exact ih _ (fun q hq => hns q (List.mem_cons_of_mem _ hq)) hhd.2 e h

/-- C4: processing `Stop` sets `scrolling` to false and `scroll_value` to 0
regardless of prior Updates, and from then on no iteration emits anything
until an iteration whose drained batch contains `Start`. -/
theorem stop_resets_and_blocks (s : EmitterState) (now : ℕ)
    (iters : List (List ScrollCommand × ℕ))
    (hns : ∀ p ∈ iters, ScrollCommand.start ∉ p.1) :
    (applyCommand now s .stop).scrolling = false ∧
    (applyCommand now s .stop).scroll_value = 0 ∧
    ∀ e ∈ (emitterRun (applyCommand now s .stop) iters).1, e = none :=
  ⟨rfl, rfl, emitterRun_idle iters _ hns rfl⟩

/-- C4 witness: after a Stop, an iteration with a pending Update(3) and an
elapsed cadence interval still emits nothing. -/
theorem stop_resets_and_blocks_witness :
    (applyCommand 0 ⟨true, 7, 0⟩ .stop).scrolling = false ∧
    (applyCommand 0 ⟨true, 7, 0⟩ .stop).scroll_value = 0 ∧
    ∀ e ∈ (emitterRun (applyCommand 0 ⟨true, 7, 0⟩ .stop)
      [([ScrollCommand.update 3], 100)]).1, e = none :=
  stop_resets_and_blocks ⟨true, 7, 0⟩ 0 [([ScrollCommand.update 3], 100)]
    (by decide)

theorem foldl_all_update_zero (now : ℕ) (cmds : List ScrollCommand) :
    ∀ s : EmitterState, cmds ≠ [] → (∀ c ∈ cmds, c = ScrollCommand.update 0) →
      (cmds.foldl (applyCommand now) s).scroll_value = 0 := by
  induction cmds with
  | nil => intro s h _; exact absurd rfl h
  | cons c cs ih =>
      intro s _ hall
      rw [List.foldl_cons]
      cases cs with
      | nil =>
          rw [List.foldl_nil, hall c (List.mem_cons_self _ _)]
          rfl
      | cons d ds =>
          exact ih _ (by simp) (fun x hx => hall x (List.mem_cons_of_mem _ hx))

/-- C5: an iteration of the scroll thread first folds the whole drained
batch over the command handler in FIFO order; it then emits exactly when
the resulting state has `scrolling` true, at least 50 ms elapsed since the
cadence timer, and a nonzero `scroll_value`; the emission has magnitude
`scroll_value` and resets the cadence timer to `now`; when it does not emit
the state is exactly the folded state.  Consequently an iteration whose
drained batch consists of Update(0) commands never emits. -/
theorem emitter_iteration_spec (s : EmitterState) (cmds : List ScrollCommand)
    (now : ℕ) :
    ((emitterIter s cmds now).2 ≠ none ↔
      ((cmds.foldl (applyCommand now) s).scrolling = true ∧
       SCROLL_INTERVAL ≤ now - (cmds.foldl (applyCommand now) s).last_scroll ∧
       (cmds.foldl (applyCommand now) s).scroll_value ≠ 0)) ∧
    ((emitterIter s cmds now).2 ≠ none →
      (emitterIter s cmds now).2 =
        some (cmds.foldl (applyCommand now) s).scroll_value ∧
      (emitterIter s cmds now).1 =
        { cmds.foldl (applyCommand now) s with last_scroll := now }) ∧
    ((emitterIter s cmds now).2 = none →
      (emitterIter s cmds now).1 = cmds.foldl (applyCommand now) s) ∧
    (cmds ≠ [] → (∀ c ∈ cmds, c = ScrollCommand.update 0) →
      (emitterIter s cmds now).2 = none) := by
  by_cases hc : (cmds.foldl (applyCommand now) s).scrolling = true ∧
      SCROLL_INTERVAL ≤ now - (cmds.foldl (applyCommand now) s).last_scroll ∧
      (cmds.foldl (applyCommand now) s).scroll_value ≠ 0
  · rw [emitterIter, if_pos hc]
    refine ⟨by simp [hc], fun _ => ⟨rfl, rfl⟩, by simp, fun hne hall => ?_⟩
    exact absurd (foldl_all_update_zero now cmds s hne hall) hc.2.2
  · rw [emitterIter, if_neg hc]
    exact ⟨by simp [hc], by simp, fun _ => rfl, fun _ _ => rfl⟩

/-- C5 witness: an iteration draining a single Update(0) while active and
with the cadence interval long elapsed emits nothing. -/
theorem emitter_iteration_spec_witness :
    (emitterIter ⟨true, 5, 0⟩ [ScrollCommand.update 0] 100).2 = none :=
  (emitter_iteration_spec ⟨true, 5, 0⟩ [ScrollCommand.update 0] 100).2.2.2
    (by decide) (by decide)

/-- Pointer-button capability bits queried through `supported_keys()`:
`BTN_LEFT`, `BTN_MIDDLE`, `BTN_RIGHT`. -/
structure DeviceKeys where
  btn_left : Bool
  btn_middle : Bool
  btn_right : Bool
  deriving DecidableEq

/-- Relative-axis capability bits queried through
`supported_relative_axes()`: `REL_X`, `REL_Y`. -/
structure DeviceAxes where
  rel_x : Bool
  rel_y : Bool
  deriving DecidableEq

/-- An opened evdev device as `find_mouse_device` inspects it:
`supported_keys()`, `supported_relative_axes()` and `name()` all return
optional values. -/
structure DeviceCaps where
  keys : Option DeviceKeys
  axes : Option DeviceAxes
  name : Option String
  deriving DecidableEq

/-- One directory entry under /dev/input: its file name and the result of
`Device::open` (`none` when opening fails). -/
structure DirEntry where
  filename : String
  device : Option DeviceCaps
  deriving DecidableEq

/-- Whether the pattern occurs at the front of the character list. -/
def leadingMatch : List Char → List Char → Bool
  | [], _ => true
  | _ :: _, [] => false
  | p :: ps, c :: cs => p == c && leadingMatch ps cs

/-- Whether the pattern occurs anywhere in the character list (Rust
`str::contains` on the relevant inputs). -/
def charsContain (pat : List Char) : List Char → Bool
  | [] => leadingMatch pat []
  | c :: cs => leadingMatch pat (c :: cs) || charsContain pat cs

/-- Rust `device_name.to_lowercase().contains("keyboard")`, with lowercasing
modelled per character. -/
def containsKeyboard (device_name : String) : Bool :=
  charsContain "keyboard".data (device_name.data.map Char.toLower)

/-- A queued candidate of `find_mouse_device`: the tuple
`(priority, path, device_name)` pushed onto `mouse_candidates`. -/
def Candidate := ℕ × String × String

/-- The comparator `|a, b| b.0.cmp(&a.0)` used by the stable
`sort_by`: `a` sorts no later than `b` exactly when `b`'s priority is at
most `a`'s (descending priority). -/
def candLE (a b : ℕ × String × String) : Bool := decide (b.1 ≤ a.1)

/-- The body of the enumeration loop of `find_mouse_device` for one
directory entry: filter names not starting with "event", skip entries that
fail to open, require at least one pointer button and both relative axes,
then build the `(priority, path, name)` candidate, deprioritizing names
containing "keyboard" (case-insensitive). -/
def candidateOf (e : DirEntry) : Option (ℕ × String × String) :=
  if leadingMatch "event".data e.filename.data then
    match e.device with
    | none => none
    | some dev =>
        let has_mouse_buttons :=
          (dev.keys.map fun k => k.btn_left || k.btn_middle || k.btn_right).getD
            false
        let has_relative_movement :=
          (dev.axes.map fun a => a.rel_x && a.rel_y).getD false
        if has_mouse_buttons && has_relative_movement then
          let device_name := dev.name.getD "Unknown"
          let priority : ℕ := if containsKeyboard device_name then 1 else 2
          some (priority, "/dev/input/" ++ e.filename, device_name)
        else
          none
  else
    none

/-- The `mouse_candidates` vector built by the enumeration loop, in
directory enumeration order. -/
def mouseCandidates (entries : List DirEntry) : List (ℕ × String × String) :=
  entries.filterMap candidateOf

/-- `mouse_candidates` after `sort_by(|a, b| b.0.cmp(&a.0))`: Rust's
`sort_by` is a stable sort, modelled by the stable `List.mergeSort`. -/
def sortedCandidates (entries : List DirEntry) : List (ℕ × String × String) :=
  (mouseCandidates entries).mergeSort candLE

/-- The error of `find_mouse_device`: `io::ErrorKind::NotFound`,
"No mouse device found". -/
inductive FindError where
  | deviceNotFound
  deriving DecidableEq

/-- `find_mouse_device` over an abstract directory listing: sort the
candidates and return the path of the first one, or `DeviceNotFound` when
there is none. -/
def find_mouse_device (entries : List DirEntry) : Except FindError String :=
  match (sortedCandidates entries).head? with
  | some c => .ok c.2.1
  | none => .error .deviceNotFound

theorem candLE_trans (a b c : ℕ × String × String) :
    candLE a b → candLE b c → candLE a c := by
  simp only [candLE, decide_eq_true_eq]
  omega

theorem candLE_total (a b : ℕ × String × String) :
    candLE a b || candLE b a := by
  simp only [candLE, Bool.or_eq_true, decide_eq_true_eq]
  omega

theorem candidateOf_inv {e : DirEntry} {c : ℕ × String × String}
    (h : candidateOf e = some c) :
    ∃ dev, e.device = some dev ∧
      leadingMatch "event".data e.filename.data = true ∧
      (dev.keys.map fun k => k.btn_left || k.btn_middle || k.btn_right).getD
        false = true ∧
      (dev.axes.map fun a => a.rel_x && a.rel_y).getD false = true ∧
      c = (if containsKeyboard (dev.name.getD "Unknown") then 1 else 2,
           "/dev/input/" ++ e.filename, dev.name.getD "Unknown") := by
  rw [candidateOf] at h
  split at h
  case isFalse => exact absurd h (by simp)
  case isTrue hev =>
    cases hdev : e.device with
    | none => rw [hdev] at h; exact absurd h (by simp)
    | some dev =>
        rw [hdev] at h
        simp only [] at h
        split at h
        case isFalse => exact absurd h (by simp)
        case isTrue hcap =>
          simp only [Bool.and_eq_true] at hcap
          exact ⟨dev, rfl, hev, hcap.1, hcap.2, (Option.some.inj h).symm⟩

theorem mouseCandidates_prio {entries : List DirEntry}
    {c : ℕ × String × String} (h : c ∈ mouseCandidates entries) :
    c.1 = if containsKeyboard c.2.2 then 1 else 2 := by
  rcases List.mem_filterMap.mp h with ⟨e, _, hc⟩
  rcases candidateOf_inv hc with ⟨dev, _, _, _, _, hshape⟩
  rw [hshape]

theorem mouseCandidates_prio_cases {entries : List DirEntry}
    {c : ℕ × String × String} (h : c ∈ mouseCandidates entries) :
    c.1 = 1 ∨ c.1 = 2 := by
  have := mouseCandidates_prio h
  split at this
  · exact Or.inl this
  · exact Or.inr this

theorem head_sortedCandidates_mem {entries : List DirEntry}
    {c : ℕ × String × String} {t : List (ℕ × String × String)}
    (hs : sortedCandidates entries = c :: t) :
    c ∈ mouseCandidates entries := by
  rw [sortedCandidates] at hs
  exact List.mem_mergeSort.mp (hs ▸ List.mem_cons_self c t)

/-- C6: whenever the selector returns a path, that path names an enumerated
entry that opened successfully, is an event node, and whose device reports
at least one of the left/middle/right pointer buttons and both relative
axes; in particular an entry lacking either relative axis is never
selected. -/
theorem selected_device_qualifies (entries : List DirEntry) (p : String)
    (h : find_mouse_device entries = .ok p) :
    ∃ e ∈ entries, ∃ dev, e.device = some dev ∧
      leadingMatch "event".data e.filename.data = true ∧
      (dev.keys.map fun k =>
        k.btn_left || k.btn_middle || k.btn_right).getD false = true ∧
      (dev.axes.map fun a => a.rel_x && a.rel_y).getD false = true ∧
      p = "/dev/input/" ++ e.filename := by
  cases hs : sortedCandidates entries with
  | nil =>
      rw [find_mouse_device, hs] at h
      exact absurd h (by simp)
  | cons c t =>
      rw [find_mouse_device, hs] at h
      simp only [List.head?_cons] at h
      have hc : c ∈ mouseCandidates entries := head_sortedCandidates_mem hs
      rcases List.mem_filterMap.mp hc with ⟨e, he, hce⟩
      rcases candidateOf_inv hce with ⟨dev, hdev, hev, hk, ha, hshape⟩
      refine ⟨e, he, dev, hdev, hev, hk, ha, ?_⟩
      have hp : p = c.2.1 := by
        cases h
        rfl
      rw [hp, hshape]

/-- A concrete mouse-like directory entry used by the witnesses. -/
def sampleMouse : DirEntry :=
  ⟨"event0", some ⟨some ⟨true, true, true⟩, some ⟨true, true⟩,
    some "USB Mouse"⟩⟩

theorem mouseCandidates_sampleMouse :
    mouseCandidates [sampleMouse] = [(2, "/dev/input/event0", "USB Mouse")] := by
  decide

theorem find_sampleMouse :
    find_mouse_device [sampleMouse] = .ok "/dev/input/event0" := by
  rw [find_mouse_device, sortedCandidates, mouseCandidates_sampleMouse,
    List.mergeSort_singleton]
  rfl

/-- C6 witness at a concrete directory listing. -/
theorem selected_device_qualifies_witness :
    ∃ e ∈ [sampleMouse], ∃ dev, e.device = some dev ∧
      leadingMatch "event".data e.filename.data = true ∧
      (dev.keys.map fun k =>
        k.btn_left || k.btn_middle || k.btn_right).getD false = true ∧
      (dev.axes.map fun a => a.rel_x && a.rel_y).getD false = true ∧
      "/dev/input/event0" = "/dev/input/" ++ e.filename :=
  selected_device_qualifies [sampleMouse] "/dev/input/event0" find_sampleMouse

/-- C8: the selector returns DeviceNotFound exactly when no enumerated
entry qualifies, and whenever it returns a path that path belongs to some
qualifying candidate. -/
theorem not_found_iff_no_candidates (entries : List DirEntry) :
    (find_mouse_device entries = .error .deviceNotFound ↔
      mouseCandidates entries = []) ∧
    ∀ p, find_mouse_device entries = .ok p →
      ∃ c ∈ mouseCandidates entries, p = c.2.1 := by
  refine ⟨⟨?_, ?_⟩, ?_⟩
  · intro h
    cases hs : sortedCandidates entries with
    | nil =>
        have hperm := List.mergeSort_perm (mouseCandidates entries) candLE
        rw [sortedCandidates] at hs
        rw [hs] at hperm
        exact (List.Perm.eq_nil hperm.symm)
    | cons c t =>
        rw [find_mouse_device, hs] at h
        simp at h
  · intro h
    rw [find_mouse_device, sortedCandidates, h, List.mergeSort_nil]
    rfl
  · intro p h
    cases hs : sortedCandidates entries with
    | nil =>
        rw [find_mouse_device, hs] at h
        exact absurd h (by simp)
    | cons c t =>
        rw [find_mouse_device, hs] at h
        simp only [List.head?_cons] at h
        have hc : c ∈ mouseCandidates entries := head_sortedCandidates_mem hs
        have hp : p = c.2.1 := by
          cases h
          rfl
        exact ⟨c, hc, hp⟩

/-- C8 witness: an empty listing yields DeviceNotFound, and the sample
listing yields the path of its only qualifying candidate. -/
theorem not_found_iff_no_candidates_witness :
    find_mouse_device [] = .error .deviceNotFound ∧
    ∃ c ∈ mouseCandidates [sampleMouse], "/dev/input/event0" = c.2.1 :=
  ⟨(not_found_iff_no_candidates []).1.mpr rfl,
   (not_found_iff_no_candidates [sampleMouse]).2 "/dev/input/event0"
     find_sampleMouse⟩

/-- C7: when at least one qualifying candidate has a display name that does
not contain "keyboard" (case-insensitive), the selected candidate (the head
of the sorted vector, whose path the selector returns) never has a name
containing "keyboard". -/
theorem keyboard_never_preferred (entries : List DirEntry)
    (h : ∃ c ∈ mouseCandidates entries, containsKeyboard c.2.2 = false) :
    ∀ c t, sortedCandidates entries = c :: t →
      containsKeyboard c.2.2 = false ∧
      find_mouse_device entries = .ok c.2.1 := by
  rcases h with ⟨c0, hc0, hkb0⟩
  intro c t hs
  have hfind : find_mouse_device entries = .ok c.2.1 := by
    rw [find_mouse_device, hs]
    rfl
  refine ⟨?_, hfind⟩
  cases hcb : containsKeyboard c.2.2 with
  | false => rfl
  | true =>
      exfalso
      have hc : c ∈ mouseCandidates entries := head_sortedCandidates_mem hs
      have hc1 : c.1 = 1 := by rw [mouseCandidates_prio hc, if_pos hcb]
      have hc02 : c0.1 = 2 := by
        rw [mouseCandidates_prio hc0, if_neg (by simp [hkb0])]
      have hc0s : c0 ∈ sortedCandidates entries := by
        rw [sortedCandidates]
        exact List.mem_mergeSort.mpr hc0
      rw [hs] at hc0s
      rcases List.mem_cons.mp hc0s with rfl | hmem
      · rw [hkb0] at hcb
        exact Bool.false_ne_true hcb
      · have hsorted :=
          List.sorted_mergeSort candLE_trans candLE_total
            (mouseCandidates entries)
        rw [← sortedCandidates, hs] at hsorted
        have hrel := List.rel_of_pairwise_cons hsorted hmem
        rw [candLE, decide_eq_true_eq, hc02, hc1] at hrel
        omega

/-- C7 witness at a concrete listing with one non-keyboard candidate. -/
theorem keyboard_never_preferred_witness :
    containsKeyboard (2, "/dev/input/event0", "USB Mouse").2.2 = false ∧
    find_mouse_device [sampleMouse] =
      .ok (2, "/dev/input/event0", "USB Mouse").2.1 :=
  keyboard_never_preferred [sampleMouse]
    ⟨(2, "/dev/input/event0", "USB Mouse"),
      by rw [mouseCandidates_sampleMouse]; exact List.mem_cons_self _ _,
      by decide⟩
    (2, "/dev/input/event0", "USB Mouse") []
    (by rw [sortedCandidates, mouseCandidates_sampleMouse,
      List.mergeSort_singleton])

theorem head_mergeSort_prio_two (l : List (ℕ × String × String))
    (hval : ∀ c ∈ l, c.1 = 1 ∨ c.1 = 2)
    {x : ℕ × String × String}
    (hfind : l.find? (fun c => c.1 == 2) = some x) :
    (l.mergeSort candLE).head? = some x := by
  induction l with
  | nil => simp at hfind
  | cons a t ih =>
      rcases List.mergeSort_cons candLE_trans candLE_total a t with
        ⟨l₁, l₂, heq, heq2, hl₁⟩
      by_cases ha : a.1 = 2
      · have hx : x = a := by
          rw [List.find?_cons_of_pos _ (by simp [ha])] at hfind
          exact (Option.some.inj hfind).symm
        have hl₁nil : l₁ = [] := by
          cases hb : l₁ with
          | nil => rfl
          | cons b bs =>
              exfalso
              have hbmem : b ∈ l₁ := hb ▸ List.mem_cons_self b bs
              have hbt : b ∈ t := by
                have hbm : b ∈ List.mergeSort t candLE := by
                  rw [heq2]
                  exact List.mem_append_left _ hbmem
                exact List.mem_mergeSort.mp hbm
              have hble := hl₁ b hbmem
              rw [Bool.not_eq_true'] at hble
              rw [candLE, decide_eq_false_iff_not] at hble
              rcases hval b (List.mem_cons_of_mem _ hbt) with h1 | h1 <;>
                omega
        rw [hx, heq, hl₁nil, List.nil_append, List.head?_cons]
      · have ha1 : a.1 = 1 := (hval a (List.mem_cons_self _ _)).resolve_right ha
        have hfind' : t.find? (fun c => c.1 == 2) = some x := by
          rw [List.find?_cons_of_neg _ (by simp [ha1])] at hfind
          exact hfind
        have ihx := ih (fun c hc => hval c (List.mem_cons_of_mem _ hc)) hfind'
        have hx2 : x.1 = 2 := by
          have := List.find?_some hfind'
          simpa using this
        cases hl : l₁ with
        | nil =>
            exfalso
            rw [hl, List.nil_append] at heq heq2
            rw [heq2] at ihx
            cases hl2 : l₂ with
            | nil =>
                rw [hl2] at ihx
                simp at ihx
            | cons y ys =>
                rw [hl2] at ihx
                simp only [List.head?_cons] at ihx
                have hy : y = x := Option.some.inj ihx
                have hsorted :=
                  List.sorted_mergeSort candLE_trans candLE_total (a :: t)
                rw [heq, hl2] at hsorted
                have hrel := List.rel_of_pairwise_cons hsorted
                  (List.mem_cons_self y ys)
                rw [candLE, decide_eq_true_eq, hy, hx2, ha1] at hrel
                omega
        | cons b bs =>
            rw [hl] at heq heq2
            rw [heq2] at ihx
            simp only [List.cons_append, List.head?_cons] at ihx
            rw [heq]
            simp only [List.cons_append, List.head?_cons]
            exact ihx

theorem pairwise_candLE_of_all_one (l : List (ℕ × String × String))
    (h : ∀ c ∈ l, c.1 = 1) : l.Pairwise (candLE · ·) := by
  induction l with
  | nil => exact List.Pairwise.nil
  | cons a t ih =>
      refine List.Pairwise.cons ?_ (ih fun c hc => h c (List.mem_cons_of_mem _ hc))
      intro b hb
      have ha := h a (List.mem_cons_self _ _)
      have hb1 := h b (List.mem_cons_of_mem _ hb)
      simp [candLE, ha, hb1]

/-- C10: the descending sort by priority is stable, so the selected
candidate (the head of the sorted vector) is always the first-enumerated
candidate of top priority: the first priority-2 candidate when one exists,
otherwise the first candidate (all of priority 1). -/
theorem first_enumerated_top_priority (entries : List DirEntry) :
    ((mouseCandidates entries).any (fun d => d.1 == 2) = true →
      (sortedCandidates entries).head? =
        (mouseCandidates entries).find? (fun c => c.1 == 2)) ∧
    ((mouseCandidates entries).any (fun d => d.1 == 2) = false →
      (sortedCandidates entries).head? =
        (mouseCandidates entries).find? (fun c => c.1 == 1)) := by
  constructor
  · intro hany
    rcases List.any_eq_true.mp hany with ⟨c0, hc0, h2⟩
    have hsome : ((mouseCandidates entries).find?
        (fun c => c.1 == 2)).isSome :=
      List.find?_isSome.mpr ⟨c0, hc0, h2⟩
    rcases Option.isSome_iff_exists.mp hsome with ⟨x, hx⟩
    rw [hx, sortedCandidates]
    exact head_mergeSort_prio_two _
      (fun c hc => mouseCandidates_prio_cases hc) hx
  · intro hany
    have hall : ∀ c ∈ mouseCandidates entries, c.1 = 1 := by
      intro c hc
      rcases mouseCandidates_prio_cases hc with h | h
      · exact h
      · exfalso
        have h2 : (mouseCandidates entries).any (fun d => d.1 == 2) = true :=
          List.any_eq_true.mpr ⟨c, hc, by simp [h]⟩
        rw [hany] at h2
        exact Bool.false_ne_true h2
    have hms := List.mergeSort_of_sorted
      (pairwise_candLE_of_all_one (mouseCandidates entries) hall)
    rw [sortedCandidates, hms]
    cases hl : mouseCandidates entries with
    | nil => rfl
    | cons a t =>
        rw [List.find?_cons_of_pos _
          (by simp [hall a (hl ▸ List.mem_cons_self a t)])]
        rfl

/-- C10 witness at a concrete listing: the single priority-2 candidate is
selected. -/
theorem first_enumerated_top_priority_witness :
    (sortedCandidates [sampleMouse]).head? =
      (mouseCandidates [sampleMouse]).find? (fun c => c.1 == 2) :=
  (first_enumerated_top_priority [sampleMouse]).1
    (by rw [mouseCandidates_sampleMouse]; decide)

end AutoScroll
